import Mathlib

/-!
Verification development for the prompt-visualizer backend.

The definitions below are a shallow embedding of `src/backend/normalize_csv.py`
and `src/backend/app.py`.  Python strings are modelled as Lean `String` /
`List Char`; Python `None` as `Option`; the two tiny regexes of
`normalize_csv.py` are modelled by explicit backtracking candidate
enumeration that follows Python `re` greedy-match semantics.  Python float
arithmetic `float(num_part) * factor` followed by `int(...)` truncation is
modelled at the IEEE-754 binary64 level: `roundDyadic` is the correctly
rounded (round to nearest, ties to even) conversion of a non-negative
rational to a double, with subnormal values and overflow to infinity, which
is exactly CPython's correctly rounded string-to-float conversion; the
factors 1, 10^6, 10^9, 10^12 convert from int to double exactly, so the
single multiplication is one more correctly rounded step; `int(inf)` raises
`OverflowError` in the Python code, caught and mapped to the empty string.
Unicode-only behaviours (non-ASCII case folding, non-ASCII `\w` and `\d`
classes) are modelled at the ASCII level, which is exact for every input
appearing in the claims.
-/

set_option maxRecDepth 20000

/-- Characters treated as whitespace by Python `str.strip` and regex `\s`. -/
def pyWhitespaceChars : List Char :=
  [' ', '\t', '\n', '\r', '\x0b', '\x0c', '\x1c', '\x1d', '\x1e', '\x1f',
   '\u0085', '\u00a0', '\u1680', '\u2000', '\u2001', '\u2002', '\u2003',
   '\u2004', '\u2005', '\u2006', '\u2007', '\u2008', '\u2009', '\u200a',
   '\u2028', '\u2029', '\u202f', '\u205f', '\u3000']

/-- Whitespace test used by the embedding of `str.strip`. -/
def isPySpace (c : Char) : Bool := decide (c ∈ pyWhitespaceChars)

/-- Left part of Python `str.strip`. -/
def stripLeftL (cs : List Char) : List Char := cs.dropWhile isPySpace

/-- Right part of Python `str.strip`. -/
def stripRightL (cs : List Char) : List Char := (cs.reverse.dropWhile isPySpace).reverse

/-- Embedding of Python `str.strip` on character lists. -/
def pyStripL (cs : List Char) : List Char := stripRightL (stripLeftL cs)

/-- Embedding of Python `str.lower` on a character (ASCII range). -/
def pyLowerChar (c : Char) : Char :=
  if 'A' ≤ c ∧ c ≤ 'Z' then Char.ofNat (c.toNat + 32) else c

/-- Embedding of Python `str.lower` on character lists. -/
def pyLowerL (cs : List Char) : List Char := cs.map pyLowerChar

/-- ASCII letter test, the regex class `[a-zA-Z]`. -/
def isAsciiLetter (c : Char) : Bool :=
  decide (('a' ≤ c ∧ c ≤ 'z') ∨ ('A' ≤ c ∧ c ≤ 'Z'))

/-- Regex word-character test for `\b` (ASCII part of Python `\w`). -/
def isWordChar (c : Char) : Bool := c.isAlphanum || c == '_'

/-! ### Field canonicalizers (`normalize_csv.py`) -/

/-- Length of the leading run of ASCII digits, regex `[0-9]*` greedy. -/
def digitRun (cs : List Char) : Nat := (cs.takeWhile Char.isDigit).length

/-- End positions (lengths) of the candidate matches of `([0-9]*\.?[0-9]+)`
anchored at the start of `cs`, in the order Python `re` greedy backtracking
tries them: the `[0-9]*` part from longest to shortest, then `\.?` with the
dot before without, then `[0-9]+` from longest to shortest. -/
def candEnds (cs : List Char) : List Nat :=
  ((List.range (digitRun cs + 1)).reverse).flatMap (fun i =>
    let rest := cs.drop i
    let withDot : List Nat :=
      match rest with
      | r0 :: r2 =>
        if r0 = '.' then
          ((List.range (digitRun r2)).reverse).map (fun j => i + 1 + (j + 1))
        else []
      | [] => []
    let noDot : List Nat :=
      ((List.range (digitRun rest)).reverse).map (fun j => i + (j + 1))
    withDot ++ noDot)

/-- Embedding of `_NUM_RE.match(s)`: the regex `([0-9]*\.?[0-9]+)` anchored at
the start; returns the length of the (greedy) match. -/
def numMatch (cs : List Char) : Option Nat := (candEnds cs).head?

/-- Embedding of `_NUM_SUFFIX_RE.match(s)`: the regex
`([0-9]*\.?[0-9]+)\s*([a-zA-Z])` anchored at the start; returns the length of
group 1 and the letter of group 2 for the first backtracking candidate whose
continuation `\s*[a-zA-Z]` matches. -/
def suffixMatch (cs : List Char) : Option (Nat × Char) :=
  (candEnds cs).findSome? (fun e =>
    match stripLeftL (cs.drop e) with
    | c :: _ => if isAsciiLetter c then some (e, c) else none
    | [] => none)

/-- Value of a list of ASCII digits read in base 10. -/
def digitsToNat (cs : List Char) : Nat :=
  cs.foldl (fun n c => n * 10 + (c.toNat - 48)) 0

/-- Mantissa and fractional scale of a decimal numeral matched by
`[0-9]*\.?[0-9]+` (forms `d+`, `d*.d+`). -/
def decToParts (cs : List Char) : Nat × Nat :=
  let ip := cs.takeWhile Char.isDigit
  match cs.dropWhile Char.isDigit with
  | r0 :: r1 =>
    if r0 = '.' then (digitsToNat (ip ++ r1), r1.length) else (digitsToNat ip, 0)
  | [] => (digitsToNat ip, 0)

/-- Binary digit count of `n` with explicit fuel, so that kernel reduction
stays shallow; the recursion halves `n` each step. -/
def bitLenAux : Nat → Nat → Nat
  | 0, _ => 0
  | f + 1, n => if n = 0 then 0 else bitLenAux f (n / 2) + 1

/-- Number of binary digits of `n` (`0` for `0`). -/
def bitLen (n : Nat) : Nat := bitLenAux n n

/-- Decide `x * 2 ^ e ≤ y` for a signed exponent `e`. -/
def leScaled (x : Nat) (e : Int) (y : Nat) : Bool :=
  if 0 ≤ e then decide (x * 2 ^ e.toNat ≤ y) else decide (x ≤ y * 2 ^ (-e).toNat)

/-- Correctly rounded (nearest, ties to even) IEEE-754 binary64 value of the
non-negative rational `a / b`, as a dyadic pair `(m, e)` of value
`m * 2 ^ e` with `m < 2 ^ 53` (subnormals at `e = -1074`), or `none` when
the rounded result overflows to infinity.  This is CPython's correctly
rounded `float(<decimal string>)` conversion, and a correctly rounded
product of doubles is obtained by applying it to the exact product. -/
def roundDyadic (a b : Nat) : Option (Nat × Int) :=
  if b = 0 then none
  else if a = 0 then some (0, 0)
  else
    let d : Int := (bitLen a : Int) - (bitLen b : Int)
    let e1 : Int := if leScaled b d a then d - 52 else d - 53
    let e2 : Int := max e1 (-1074)
    let num := if 0 ≤ e2 then a else a * 2 ^ (-e2).toNat
    let den := if 0 ≤ e2 then b * 2 ^ e2.toNat else b
    let q := num / den
    let r := num % den
    let m := if den < 2 * r then q + 1
             else if 2 * r < den then q
             else if q % 2 = 1 then q + 1 else q
    let me : Nat × Int := if m = 2 ^ 53 then (2 ^ 52, e2 + 1) else (m, e2)
    if (971 : Int) < me.2 then none else some me

/-- Model of `str(int(float(num_part) * factor))` for a matched numeral
`num_part` and a factor from `{1, 10^6, 10^9, 10^12}`: the numeral is
converted to the nearest binary64 double, multiplied by the exactly
representable factor with one more correct rounding, and truncated toward
zero; an infinite value makes `int(...)` raise `OverflowError`, which the
Python code catches and maps to the empty string. -/
def intTextOfScaled (numPart : List Char) (factor : Nat) : String :=
  let p := decToParts numPart
  match roundDyadic p.1 (10 ^ p.2) with
  | none => ""
  | some me =>
    let a2 := if 0 ≤ me.2 then me.1 * factor * 2 ^ me.2.toNat else me.1 * factor
    let b2 := if 0 ≤ me.2 then 1 else 2 ^ (-me.2).toNat
    match roundDyadic a2 b2 with
    | none => ""
    | some mf =>
      toString (if 0 ≤ mf.2 then mf.1 * 2 ^ mf.2.toNat else mf.1 / 2 ^ (-mf.2).toNat)

/-- Sentinel spellings treated as an empty amount by `parse_money_to_int`. -/
def moneySentinels : List String := ["nan", "na", "n/a", "—", "-"]

/-- Embedding of `s.replace("$", "").replace(",", "").replace(" ", "").lower()`
from `parse_money_to_int`, applied to the stripped character list. -/
def moneyCleaned (s : List Char) : List Char :=
  pyLowerL (((s.filter (fun c => c != '$')).filter
    (fun c => c != ',')).filter (fun c => c != ' '))

/-- Embedding of `parse_money_to_int` from `normalize_csv.py`.  A missing
value (Python `None`) is `none`. -/
def parse_money_to_int (value : Option String) : String :=
  match value with
  | none => ""
  | some v =>
    let s := pyStripL v.data
    if s.isEmpty then ""
    else if moneySentinels.contains (String.mk (pyLowerL s)) then ""
    else
      let s2 := moneyCleaned s
      if s2.isEmpty then ""
      else
        match suffixMatch s2 with
        | some es =>
          let sufL := pyLowerChar es.2
          let factor : Nat :=
            if sufL = 't' then 10 ^ 12
            else if sufL = 'b' then 10 ^ 9
            else if sufL = 'm' then 10 ^ 6
            else 1
          intTextOfScaled (s2.take es.1) factor
        | none =>
          match numMatch s2 with
          | some e => intTextOfScaled (s2.take e) 1
          | none => ""

/-- Embedding of `parse_employees_to_int` from `normalize_csv.py`: strip,
drop commas, require `[-+]?\d+`, and return the canonical integer text. -/
def parse_employees_to_int (value : Option String) : String :=
  match value with
  | none => ""
  | some v =>
    let s := (pyStripL v.data).filter (fun c => c != ',')
    match s with
    | [] => ""
    | c :: rest =>
      if c = '-' ∨ c = '+' then
        if rest.isEmpty then ""
        else if rest.all Char.isDigit then
          if c = '-' then toString (-(digitsToNat rest : Int))
          else toString ((digitsToNat rest : Int))
        else ""
      else if (c :: rest).all Char.isDigit then toString ((digitsToNat (c :: rest) : Int))
      else ""

/-! ### Dataset normalizer (`normalize_csv.py`) -/

/-- A CSV row as produced by `csv.DictReader`: ordered column-name/value
pairs with unique keys; a value is `none` when the physical row was shorter
than the header (`restval`). -/
abbrev Row := List (String × Option String)

/-- Per-field action of the normalization loop body of `normalize_csv`. -/
def normalizeField (k : String) (v : Option String) : Option String :=
  if k = "Total Funding" ∨ k = "ARR" ∨ k = "Valuation" then some (parse_money_to_int v)
  else if k = "Employees" then some (parse_employees_to_int v)
  else v

/-- One iteration of the `normalize_csv` loop on a `DictReader` row. -/
def normalizeRow (r : Row) : Row := r.map (fun e => (e.1, normalizeField e.1 e.2))

/-- Python dict lookup `row[k]` on a `DictReader` row: `none` when the column
is absent, otherwise the stored (possibly `None`) cell value. -/
def lookupRow (r : Row) (k : String) : Option (Option String) :=
  (r.find? (fun e => e.1 == k)).map (fun e => e.2)

/-- Embedding of `normalize_csv`: the streaming loop over the data rows,
carrying the written rows and the `(rows_in, rows_out)` counters exactly as
the Python loop does.  The header is echoed unchanged to the writer. -/
def normalize_csv (header : List String) (rows : List Row) :
    (List String × List Row) × (Nat × Nat) :=
  let out := rows.foldl
    (fun (acc : List Row × Nat × Nat) row =>
      (acc.1 ++ [normalizeRow row], acc.2.1 + 1, acc.2.2 + 1))
    ([], 0, 0)
  ((header, out.1), (out.2.1, out.2.2))

/-! ### Output extractor (`app.py`, `_extract_sql`) -/

/-- Embedding of the Python substring operator `pat in s`. -/
def containsSub (pat : List Char) : List Char → Bool
  | [] => pat.isEmpty
  | c :: rest => pat.isPrefixOf (c :: rest) || containsSub pat rest

/-- Test for the regex `select\b` (case-insensitive) at the head of `cs`. -/
def selectAtHead (cs : List Char) : Bool :=
  (pyLowerL (cs.take 6) == "select".data) &&
  (match cs.drop 6 with
   | [] => true
   | c :: _ => !(isWordChar c))

/-- Scanner for `re.search(r"select\b", t, IGNORECASE)`: index of the first
match, left to right. -/
def findSelectAux : List Char → Nat → Option Nat
  | [], _ => none
  | c :: rest, i =>
    if selectAtHead (c :: rest) then some i else findSelectAux rest (i + 1)

/-- Index of the first case-insensitive `select\b` match in `cs`. -/
def findSelect (cs : List Char) : Option Nat := findSelectAux cs 0

/-- The two code-fence removal substitutions of `_extract_sql`:
`re.sub(r"^```(sql)?", "", t, flags=IGNORECASE).strip()` followed by
`re.sub(r"```$", "", t).strip()` (the input is already stripped, so the `$`
anchor is plain end-of-string). -/
def fenceStripped (t : List Char) : List Char :=
  let t1 := pyStripL (if pyLowerL (t.take 6) == "```sql".data then t.drop 6
                      else if t.take 3 == "```".data then t.drop 3
                      else t)
  pyStripL (if "```".data.isSuffixOf t1 then t1.take (t1.length - 3) else t1)

/-- Embedding of `_extract_sql` from `app.py`.  Returns `none` for
unparseable text, the sentinel string for an insufficiency signal, and the
extracted statement otherwise, exactly following the Python control flow. -/
def extract_sql (text : String) : Option String :=
  if text.isEmpty then none
  else
    let t := pyStripL text.data
    if containsSub "insufficient data".data (pyLowerL t) then some "INSUFFICIENT_DATA"
    else
      match findSelect (fenceStripped t) with
      | none => none
      | some i => some (String.mk (pyStripL ((fenceStripped t).drop i)))

/-! ### Generation backends and orchestrator (`app.py`) -/

/-- Outcome of one HTTP call attempt by a keyed backend wrapper: the
credential is absent, the request failed (exception or status ≥ 400), or a
completion text was obtained. -/
inductive CallResult where
  | noKey : CallResult
  | transient : CallResult
  | ok : String → CallResult

/-- Outcome of one Ollama call attempt: failure (exception or status ≥ 400)
or a completion text.  The Ollama wrapper has no credential check. -/
inductive OllamaCall where
  | transient : OllamaCall
  | ok : String → OllamaCall

/-- Embedding of `_openai_generate_sql`: `None` without a key, the
`"FALLBACK"` sentinel on transport failure, else the extractor's result on
the completion text. -/
def openai_generate_sql : CallResult → Option String
  | CallResult.noKey => none
  | CallResult.transient => some "FALLBACK"
  | CallResult.ok txt => extract_sql txt

/-- Embedding of `_anthropic_generate_sql`; identical contract to the
OpenAI wrapper. -/
def anthropic_generate_sql : CallResult → Option String
  | CallResult.noKey => none
  | CallResult.transient => some "FALLBACK"
  | CallResult.ok txt => extract_sql txt

/-- Embedding of `_ollama_duckdb_nsql_generate_sql`: failures yield `None`
(no `"FALLBACK"` sentinel), else the extractor's result. -/
def ollama_generate_sql : OllamaCall → Option String
  | OllamaCall.transient => none
  | OllamaCall.ok txt => extract_sql txt

/-- One keyed-backend stage of `generate_sql_from_question`: stop on the
insufficiency sentinel, map the `"FALLBACK"` sentinel to `None`, return a
non-empty statement attributed to `name`, and otherwise continue with
`next` (the code repeats this block for OpenAI and for Anthropic). -/
def keyedStep (r : Option String) (name : String) (next : String × Option String) :
    String × Option String :=
  if r == some "INSUFFICIENT_DATA" then (name, some "INSUFFICIENT_DATA")
  else
    match (if r == some "FALLBACK" then none else r) with
    | some s => if s == "" then next else (name, some s)
    | none => next

/-- Final stage of `generate_sql_from_question`: any non-empty Ollama result
(the insufficiency sentinel included) is attributed to the Ollama backend;
otherwise the chain ends with the sentinel `"none"` source. -/
def ollamaStep (l : OllamaCall) : String × Option String :=
  match ollama_generate_sql l with
  | some s => if s == "" then ("none", some "INSUFFICIENT_DATA") else ("ollama-duckdb-nsql", some s)
  | none => ("none", some "INSUFFICIENT_DATA")

/-- Embedding of `generate_sql_from_question` from `app.py`: try OpenAI,
then Anthropic, then Ollama, with the exact sentinel handling of the Python
code, returning `(source, sql_or_insufficient)`. -/
def generate_sql_from_question (o a : CallResult) (l : OllamaCall) :
    String × Option String :=
  keyedStep (openai_generate_sql o) "openai"
    (keyedStep (anthropic_generate_sql a) "anthropic" (ollamaStep l))

/-- A wrapper result that stops the fallback chain: the insufficiency
sentinel, or a non-empty extracted statement (the Python code treats the
`"FALLBACK"` sentinel and the empty string as non-results). -/
def decisiveRes : Option String → Bool
  | none => false
  | some s => s == "INSUFFICIENT_DATA" || (s != "FALLBACK" && s != "")

/-! ### Query validator (`app.py`, `query_parquet` and the ask path) -/

/-- Embedding of `sql.strip().lower().startswith("select")`, the expression
guarding both `query_parquet` and the ask path. -/
def sql_guard (sql : String) : Bool :=
  "select".data.isPrefixOf (pyLowerL (pyStripL sql.data))

/-- Guard stage of `query_parquet`: `ValueError` unless the statement passes
the SELECT gate. -/
def query_parquet_guard (sql : String) : Except String Unit :=
  if sql_guard sql then Except.ok () else Except.error "Only SELECT statements are allowed"

/-- Guard branch of the ask endpoint: 400 `bad_query` unless the statement
passes the SELECT gate. -/
def ask_guard (sql : String) : Except String Unit :=
  if sql_guard sql then Except.ok () else Except.error "Generated SQL must be SELECT"

/-! ### Columnar snapshot builder (`app.py`, `_ensure_parquet`) -/

/-- Filesystem state seen by `_ensure_parquet`: modification time of the
latest normalized CSV (or none when no CSV exists) and of the Parquet
snapshot (or none when the snapshot file is absent). -/
structure SnapState where
  csvMtime : Option Nat
  parquetMtime : Option Nat

/-- Embedding of the `need_build` computation of `_ensure_parquet`: build
when the snapshot is absent, else when the source mtime is strictly newer. -/
def needBuild (csvM : Nat) (parquetM : Option Nat) : Bool :=
  match parquetM with
  | none => true
  | some pm => decide (pm < csvM)

/-- Embedding of `_ensure_parquet` over the mtime state (successful-build
path): returns the new state and whether a rebuild was performed; `now` is
the time the rebuilt snapshot is written. -/
def ensure_parquet (s : SnapState) (now : Nat) : SnapState × Bool :=
  match s.csvMtime with
  | none => (s, false)
  | some cm =>
    if needBuild cm s.parquetMtime then ({ s with parquetMtime := some now }, true)
    else (s, false)

/-! ### Character-class lemmas -/

lemma isPySpace_false_of_letter {c : Char} (h : isAsciiLetter c = true) :
    isPySpace c = false := by
  cases hs : isPySpace c with
  | false => rfl
  | true =>
    exfalso
    have hm : c ∈ pyWhitespaceChars := of_decide_eq_true hs
    fin_cases hm <;> exact absurd h (by decide)

lemma isPySpace_false_of_digit {c : Char} (h : c.isDigit = true) :
    isPySpace c = false := by
  cases hs : isPySpace c with
  | false => rfl
  | true =>
    exfalso
    have hm : c ∈ pyWhitespaceChars := of_decide_eq_true hs
    fin_cases hm <;> exact absurd h (by decide)

lemma isDigit_false_of_letter {c : Char} (h : isAsciiLetter c = true) :
    c.isDigit = false := by
  have h' := of_decide_eq_true h
  rw [show Char.isDigit = fun c => decide ('0' ≤ c) && decide (c ≤ '9') from rfl]
  simp
  intro _
  rcases h' with ⟨ha, _⟩ | ⟨ha, _⟩
  · exact lt_of_lt_of_le (by decide) ha
  · exact lt_of_lt_of_le (by decide) ha

lemma ne_dot_of_letter {c : Char} (h : isAsciiLetter c = true) : c ≠ '.' := by
  rintro rfl
  exact absurd h (by decide)

lemma ne_dot_of_digit {c : Char} (h : c.isDigit = true) : c ≠ '.' := by
  rintro rfl
  exact absurd h (by decide)

lemma pyLowerChar_fix_of_ws {c : Char} (h : c ∈ pyWhitespaceChars) :
    pyLowerChar c = c := by
  fin_cases h <;> decide

/-! ### Strip lemmas -/

lemma dropWhile_dropWhile (p : Char → Bool) (l : List Char) :
    (l.dropWhile p).dropWhile p = l.dropWhile p := by
  induction l with
  | nil => rfl
  | cons c rest ih =>
    by_cases h : p c = true
    · simp [List.dropWhile_cons, h, ih]
    · simp [List.dropWhile_cons, h]

lemma stripRightL_idem (l : List Char) :
    stripRightL (stripRightL l) = stripRightL l := by
  unfold stripRightL
  rw [List.reverse_reverse, dropWhile_dropWhile]

lemma stripLeftL_cons_of {c : Char} (t : List Char) (hc : isPySpace c = false) :
    stripLeftL (c :: t) = c :: t := by
  simp [stripLeftL, List.dropWhile_cons, hc]

lemma dropWhile_eq_self_of_nonspace {a : List Char}
    (ha : ∀ c ∈ a, isPySpace c = false) : a.dropWhile isPySpace = a := by
  cases a with
  | nil => rfl
  | cons c t => simp [List.dropWhile_cons, ha c (List.mem_cons_self c t)]

lemma stripRightL_append (a b : List Char) (_hne : a ≠ [])
    (ha : ∀ c ∈ a, isPySpace c = false) :
    stripRightL (a ++ b) = a ++ stripRightL b := by
  unfold stripRightL
  rw [List.reverse_append, List.dropWhile_append]
  have hra : a.reverse.dropWhile isPySpace = a.reverse :=
    dropWhile_eq_self_of_nonspace (fun c hc => ha c (List.mem_reverse.mp hc))
  by_cases he : (b.reverse.dropWhile isPySpace).isEmpty = true
  · rw [if_pos he, hra, List.reverse_reverse]
    have : b.reverse.dropWhile isPySpace = [] := List.isEmpty_iff.mp he
    rw [this]
    simp
  · rw [if_neg he, List.reverse_append, List.reverse_reverse]

lemma pyStripL_append (a b : List Char) (hne : a ≠ [])
    (ha : ∀ c ∈ a, isPySpace c = false) :
    pyStripL (a ++ b) = a ++ stripRightL b := by
  unfold pyStripL
  have h1 : stripLeftL (a ++ b) = a ++ b := by
    cases a with
    | nil => exact absurd rfl hne
    | cons c t =>
      rw [List.cons_append]
      exact stripLeftL_cons_of _ (ha c (List.mem_cons_self c t))
  rw [h1, stripRightL_append a b hne ha]

lemma stripLeftL_suffix (l : List Char) : stripLeftL l <:+ l := by
  conv_rhs => rw [← List.takeWhile_append_dropWhile isPySpace l]
  exact List.suffix_append _ _

lemma stripRightL_prefixOf (l : List Char) : stripRightL l <+: l := by
  rw [← List.reverse_suffix]
  unfold stripRightL
  rw [List.reverse_reverse]
  conv_rhs => rw [← List.takeWhile_append_dropWhile isPySpace l.reverse]
  exact List.suffix_append _ _

lemma pyStripL_infixOf (l : List Char) : pyStripL l <:+: l := by
  have g1 := List.IsPrefix.isInfix (stripRightL_prefixOf (stripLeftL l))
  have g2 := List.IsSuffix.isInfix (stripLeftL_suffix l)
  exact List.IsInfix.trans g1 g2

lemma strip_decomp (l : List Char) :
    ∃ w1 w2, l = w1 ++ pyStripL l ++ w2 ∧ (∀ c ∈ w1, isPySpace c = true) ∧
      (∀ c ∈ w2, isPySpace c = true) := by
  refine ⟨l.takeWhile isPySpace, ((stripLeftL l).reverse.takeWhile isPySpace).reverse,
    ?_, fun c hc => List.mem_takeWhile_imp hc,
    fun c hc => List.mem_takeWhile_imp (List.mem_reverse.mp hc)⟩
  conv_lhs => rw [← List.takeWhile_append_dropWhile isPySpace l]
  rw [List.append_assoc]
  congr 1
  show stripLeftL l = pyStripL l ++ _
  conv_lhs => rw [← List.reverse_reverse (stripLeftL l),
    ← List.takeWhile_append_dropWhile isPySpace (stripLeftL l).reverse,
    List.reverse_append]
  rfl

/-! ### Substring and occurrence lemmas -/

lemma isPrefixOf_append_self (a b : List Char) : a.isPrefixOf (a ++ b) = true := by
  rw [ List.isPrefixOf_iff_prefix]
  exact List.prefix_append a b

lemma containsSub_iff (pat cs : List Char) :
    containsSub pat cs = true ↔ pat <:+: cs := by
  induction cs with
  | nil =>
    simp [containsSub, List.isEmpty_iff, List.infix_nil]
  | cons c rest ih =>
    simp only [containsSub, Bool.or_eq_true, List.isPrefixOf_iff_prefix, ih,
      List.infix_cons_iff]

lemma infix_ws_left {pat w mid : List Char} {h0 : Char} {t0 : List Char}
    (hp : pat = h0 :: t0) (hh : isPySpace h0 = false)
    (hw : ∀ c ∈ w, isPySpace c = true) :
    pat <:+: w ++ mid → pat <:+: mid := by
  induction w with
  | nil =>
    intro h
    rwa [List.nil_append] at h
  | cons c w' ih =>
    intro h
    rw [List.cons_append] at h
    rcases List.infix_cons_iff.mp h with hpre | hinf
    · exfalso
      subst hp
      rcases hpre with ⟨r, hr⟩
      rw [List.cons_append] at hr
      have hc : h0 = c := (List.cons.injEq _ _ _ _).mp hr |>.1
      rw [hc] at hh
      rw [hw c (List.mem_cons_self c w')] at hh
      simp at hh
    · exact ih (fun d hd => hw d (List.mem_cons_of_mem c hd)) hinf

lemma infix_ws_right {t1 : List Char} {l0 : Char} {mid w : List Char}
    (hl : isPySpace l0 = false) (hw : ∀ c ∈ w, isPySpace c = true) :
    (t1 ++ [l0]) <:+: mid ++ w → (t1 ++ [l0]) <:+: mid := by
  intro h
  have h' : (t1 ++ [l0]).reverse <:+: (mid ++ w).reverse :=
    List.reverse_infix.mpr h
  rw [List.reverse_append, List.reverse_append] at h'
  have h'' : l0 :: t1.reverse <:+: w.reverse ++ mid.reverse := by
    simpa using h'
  have h3 := infix_ws_left rfl hl
    (fun c hc => hw c (List.mem_reverse.mp hc)) h''
  have h4 : (t1 ++ [l0]).reverse <:+: mid.reverse := by
    simpa using h3
  exact List.reverse_infix.mp h4

lemma pyLowerL_ws {w : List Char} (hw : ∀ c ∈ w, isPySpace c = true) :
    pyLowerL w = w := by
  induction w with
  | nil => rfl
  | cons c t ih =>
    unfold pyLowerL at *
    rw [List.map_cons,
      pyLowerChar_fix_of_ws (of_decide_eq_true (hw c (List.mem_cons_self c t))),
      ih (fun d hd => hw d (List.mem_cons_of_mem c hd))]

lemma contains_lower_strip (pat : List Char) (h0 l0 : Char) (t0 t1 : List Char)
    (hp : pat = h0 :: t0) (hpl : pat = t1 ++ [l0])
    (hh : isPySpace h0 = false) (hl : isPySpace l0 = false)
    (cs : List Char) :
    containsSub pat (pyLowerL (pyStripL cs)) = containsSub pat (pyLowerL cs) := by
  rw [Bool.eq_iff_iff, containsSub_iff, containsSub_iff]
  constructor
  · intro h
    exact h.trans (List.IsInfix.map pyLowerChar (pyStripL_infixOf cs))
  · intro h
    rcases strip_decomp cs with ⟨w1, w2, hdec, hw1, hw2⟩
    rw [hdec] at h
    unfold pyLowerL at h
    rw [List.map_append, List.map_append] at h
    have hw1' : ∀ c ∈ List.map pyLowerChar w1, isPySpace c = true := by
      rw [show List.map pyLowerChar w1 = pyLowerL w1 from rfl, pyLowerL_ws hw1]
      exact hw1
    have hw2' : ∀ c ∈ List.map pyLowerChar w2, isPySpace c = true := by
      rw [show List.map pyLowerChar w2 = pyLowerL w2 from rfl, pyLowerL_ws hw2]
      exact hw2
    rw [List.append_assoc] at h
    have h1 := infix_ws_left hp hh hw1' h
    rw [hpl] at h1
    have h2 := infix_ws_right hl hw2' h1
    rw [← hpl] at h2
    exact h2

/-! ### First-occurrence lemmas for the select scanner -/

lemma findSelectAux_some {cs : List Char} {i j : Nat}
    (h : findSelectAux cs i = some j) :
    ∃ d, j = i + d ∧ selectAtHead (cs.drop d) = true ∧
      ∀ e < d, selectAtHead (cs.drop e) = false := by
  induction cs generalizing i with
  | nil => simp [findSelectAux] at h
  | cons c rest ih =>
    rw [findSelectAux] at h
    by_cases hsel : selectAtHead (c :: rest) = true
    · rw [if_pos hsel] at h
      injection h with h
      refine ⟨0, by omega, by simpa using hsel, ?_⟩
      intro e he
      exact absurd he (Nat.not_lt_zero e)
    · rw [if_neg hsel] at h
      rcases ih h with ⟨d, hd, hsel', hmin⟩
      refine ⟨d + 1, by omega, by simpa using hsel', ?_⟩
      intro e he
      cases e with
      | zero => simpa using Bool.eq_false_iff.mpr hsel
      | succ e' =>
        have := hmin e' (by omega)
        simpa using this

lemma findSelectAux_none {cs : List Char} {i : Nat}
    (h : findSelectAux cs i = none) :
    ∀ d, selectAtHead (cs.drop d) = false := by
  induction cs generalizing i with
  | nil =>
    intro d
    simp [selectAtHead, pyLowerL]
  | cons c rest ih =>
    rw [findSelectAux] at h
    by_cases hsel : selectAtHead (c :: rest) = true
    · rw [if_pos hsel] at h
      exact absurd h (by simp)
    · rw [if_neg hsel] at h
      intro d
      cases d with
      | zero => simpa using Bool.eq_false_iff.mpr hsel
      | succ d' => simpa using ih h d'

lemma findSelectAux_none_of {cs : List Char} (i : Nat)
    (h : ∀ d, selectAtHead (cs.drop d) = false) :
    findSelectAux cs i = none := by
  induction cs generalizing i with
  | nil => rfl
  | cons c rest ih =>
    rw [findSelectAux, if_neg]
    · exact ih (i + 1) (fun d => by simpa using h (d + 1))
    · have := h 0
      simp only [List.drop_zero] at this
      simp [this]

/-! ### Extracted-statement shape lemmas -/

lemma selectAtHead_take {cs : List Char} (h : selectAtHead cs = true) :
    pyLowerL (cs.take 6) = "select".data := by
  unfold selectAtHead at h
  rw [Bool.and_eq_true] at h
  exact eq_of_beq h.1

lemma select_take_nonspace {cs : List Char}
    (h : pyLowerL (cs.take 6) = "select".data) :
    ∀ c ∈ cs.take 6, isPySpace c = false := by
  intro c hc
  have hm : pyLowerChar c ∈ "select".data := by
    rw [← h]
    exact List.mem_map_of_mem _ hc
  cases hsp : isPySpace c with
  | false => rfl
  | true =>
    exfalso
    rw [pyLowerChar_fix_of_ws (of_decide_eq_true hsp)] at hm
    fin_cases hm <;> exact absurd hsp (by decide)

lemma select_take_length {cs : List Char}
    (h : pyLowerL (cs.take 6) = "select".data) : (cs.take 6).length = 6 := by
  have h' := congrArg List.length h
  simpa [pyLowerL] using h'

lemma select_strip {cs : List Char} (h : selectAtHead cs = true) :
    pyStripL cs = cs.take 6 ++ stripRightL (cs.drop 6) := by
  have h1 := selectAtHead_take h
  have h2 := select_take_nonspace h1
  have h3 := select_take_length h1
  have hne : cs.take 6 ≠ [] := by
    intro he
    rw [he] at h3
    simp at h3
  conv_lhs => rw [← List.take_append_drop 6 cs]
  exact pyStripL_append _ _ hne h2

lemma select_result {cs : List Char} (h : selectAtHead cs = true) :
    sql_guard (String.mk (pyStripL cs)) = true ∧
      String.mk (pyStripL cs) ≠ "INSUFFICIENT_DATA" := by
  have h1 := selectAtHead_take h
  have h2 := select_take_nonspace h1
  have h3 := select_take_length h1
  have hne : cs.take 6 ≠ [] := by
    intro he
    rw [he] at h3
    simp at h3
  have hs := select_strip h
  constructor
  · unfold sql_guard
    rw [show (String.mk (pyStripL cs)).data = pyStripL cs from rfl, hs,
      pyStripL_append _ _ hne h2, stripRightL_idem]
    unfold pyLowerL
    rw [List.map_append]
    rw [show List.map pyLowerChar (cs.take 6) = pyLowerL (cs.take 6) from rfl, h1]
    exact isPrefixOf_append_self _ _
  · intro habs
    have hd : pyStripL cs = "INSUFFICIENT_DATA".data := congrArg String.data habs
    rw [hs] at hd
    have ht : cs.take 6 = ('I' :: 'N' :: 'S' :: 'U' :: 'F' :: 'F' :: []) := by
      have := congrArg (List.take 6) hd
      rw [List.take_left' h3] at this
      rw [this]
      rfl
    rw [ht] at h1
    exact absurd h1 (by decide)

/-! ### Orchestrator step lemmas -/

lemma keyedStep_decisive {r : Option String} (name : String)
    (next : String × Option String) (h : decisiveRes r = true) :
    keyedStep r name next = (name, r) := by
  match r with
  | none => simp [decisiveRes] at h
  | some s =>
    by_cases hI : s = "INSUFFICIENT_DATA"
    · subst hI
      rfl
    · have hFE : s ≠ "FALLBACK" ∧ s ≠ "" := by
        simp [decisiveRes, hI] at h
        exact h
      simp [keyedStep, hI, hFE.1, hFE.2]

lemma keyedStep_pass {r : Option String} (name : String)
    (next : String × Option String) (h : decisiveRes r = false) :
    keyedStep r name next = next := by
  match r with
  | none => rfl
  | some s =>
    have h' : s ≠ "INSUFFICIENT_DATA" ∧ (s = "FALLBACK" ∨ s = "") := by
      simp [decisiveRes] at h
      tauto
    rcases h'.2 with hF | hE
    · subst hF
      rfl
    · subst hE
      rfl

lemma keyedStep_cases (r : Option String) (name : String)
    (next : String × Option String) :
    keyedStep r name next = next ∨
      ∃ s, r = some s ∧ s ≠ "FALLBACK" ∧ s ≠ "" ∧
        keyedStep r name next = (name, some s) := by
  match r with
  | none => exact Or.inl rfl
  | some s =>
    by_cases hI : s = "INSUFFICIENT_DATA"
    · subst hI
      exact Or.inr ⟨_, rfl, by decide, by decide, rfl⟩
    · by_cases hF : s = "FALLBACK"
      · subst hF
        exact Or.inl rfl
      · by_cases hE : s = ""
        · subst hE
          exact Or.inl rfl
        · refine Or.inr ⟨s, rfl, hF, hE, ?_⟩
          simp [keyedStep, hI, hF, hE]

lemma ollamaStep_cases (l : OllamaCall) :
    ollamaStep l = ("none", some "INSUFFICIENT_DATA") ∨
      ∃ s, ollama_generate_sql l = some s ∧ s ≠ "" ∧
        ollamaStep l = ("ollama-duckdb-nsql", some s) := by
  unfold ollamaStep
  rcases hr : ollama_generate_sql l with _ | s
  · exact Or.inl rfl
  · by_cases hE : s = ""
    · subst hE
      exact Or.inl rfl
    · refine Or.inr ⟨s, rfl, hE, ?_⟩
      simp [hE]

lemma extract_sql_select {t : String} {r : String}
    (h : extract_sql t = some r) (hne : r ≠ "INSUFFICIENT_DATA") :
    sql_guard r = true := by
  unfold extract_sql at h
  split at h
  · exact absurd h (by simp)
  · dsimp only [] at h
    split at h
    · injection h with h
      exact absurd h.symm hne
    · split at h
      · exact absurd h (by simp)
      · next i hfs =>
        rw [Option.some.injEq] at h
        rcases findSelectAux_some hfs with ⟨d, hd, hsel, _⟩
        have hd0 : d = i := by omega
        subst hd0
        rw [← h]
        exact (select_result hsel).1

/-! ### Claim C5 -/

/-- C5: `parse_money_to_int` maps `"$1.2B"`, `"2,500,000"`, `"3.4m"` and the
em-dash to `"1200000000"`, `"2500000"`, `"3400000"` and the empty string
respectively, per the strip/lower/match/multiply/truncate rule. -/
theorem parse_money_examples :
    parse_money_to_int (some "$1.2B") = "1200000000" ∧
    parse_money_to_int (some "2,500,000") = "2500000" ∧
    parse_money_to_int (some "3.4m") = "3400000" ∧
    parse_money_to_int (some "—") = "" := by
  refine ⟨?_, ?_, ?_, ?_⟩ <;> decide

/-! ### Claim C4 -/

/-- C4: `_ensure_parquet` rebuilds exactly when the snapshot file is absent
or the source modification time is strictly newer than the snapshot's, and a
second call with an unchanged source performs no rebuild. -/
theorem ensure_parquet_rebuild_spec (s : SnapState) (now now' cm : Nat)
    (hcsv : s.csvMtime = some cm) :
    ((ensure_parquet s now).2 = true ↔
      s.parquetMtime = none ∨ ∃ pm, s.parquetMtime = some pm ∧ pm < cm) ∧
    (cm ≤ now → (ensure_parquet (ensure_parquet s now).1 now').2 = false) := by
  obtain ⟨csvM, pqM⟩ := s
  simp only at hcsv
  subst hcsv
  constructor
  · cases pqM with
    | none => simp [ensure_parquet, needBuild]
    | some pm =>
      simp only [ensure_parquet, needBuild]
      by_cases hlt : pm < cm
      · simp [hlt]
      · simp [hlt]
  · intro hle
    cases pqM with
    | none =>
      simp [ensure_parquet, needBuild]
      rw [if_neg (by omega : ¬ now < cm)]
    | some pm =>
      by_cases hlt : pm < cm
      · simp [ensure_parquet, needBuild, hlt]
        rw [if_neg (by omega : ¬ now < cm)]
      · simp [ensure_parquet, needBuild, hlt]

/-- Witness for C4 at a concrete filesystem state: source newer than
snapshot forces one rebuild, and the immediate second call does nothing. -/
theorem ensure_parquet_rebuild_spec_witness :
    (ensure_parquet ⟨some 5, some 3⟩ 7).2 = true ∧
    (ensure_parquet (ensure_parquet ⟨some 5, some 3⟩ 7).1 9).2 = false := by
  have h := ensure_parquet_rebuild_spec ⟨some 5, some 3⟩ 7 9 5 rfl
  exact ⟨h.1.mpr (Or.inr ⟨3, rfl, by omega⟩), h.2 (by omega)⟩

/-! ### Claim C7 -/

lemma normalize_loop (rows : List Row) (acc : List Row) (n m : Nat) :
    rows.foldl (fun (acc : List Row × Nat × Nat) row =>
      (acc.1 ++ [normalizeRow row], acc.2.1 + 1, acc.2.2 + 1)) (acc, n, m) =
    (acc ++ rows.map normalizeRow, n + rows.length, m + rows.length) := by
  induction rows generalizing acc n m with
  | nil => simp
  | cons r rs ih =>
    rw [List.foldl_cons]
    show List.foldl _ (acc ++ [normalizeRow r], n + 1, m + 1) rs = _
    rw [ih]
    simp only [List.map_cons, List.length_cons, Prod.mk.injEq]
    refine ⟨?_, by omega, by omega⟩
    rw [List.append_assoc]
    rfl

/-- C7: the normalizer emits exactly one output row per input data row, in
order, and the returned `(rows_in, rows_out)` counters both equal the number
of data rows. -/
theorem normalize_csv_row_count (header : List String) (rows : List Row) :
    (normalize_csv header rows).1.2 = rows.map normalizeRow ∧
    (normalize_csv header rows).1.2.length = rows.length ∧
    (normalize_csv header rows).2.1 = rows.length ∧
    (normalize_csv header rows).2.2 = (normalize_csv header rows).2.1 := by
  unfold normalize_csv
  rw [normalize_loop rows [] 0 0]
  simp

/-! ### Claim C8 -/

lemma lookupRow_normalizeRow (r : Row) (k : String)
    (hk : ¬(k = "Total Funding" ∨ k = "ARR" ∨ k = "Valuation" ∨ k = "Employees")) :
    lookupRow (normalizeRow r) k = lookupRow r k := by
  induction r with
  | nil => rfl
  | cons e rest ih =>
    unfold normalizeRow at *
    unfold lookupRow at *
    rw [List.map_cons, List.find?_cons, List.find?_cons]
    by_cases hke : (e.1 == k) = true
    · have hkk : e.1 = k := eq_of_beq hke
      simp only [hke]
      have hnf : normalizeField e.1 e.2 = e.2 := by
        unfold normalizeField
        rw [if_neg, if_neg]
        · rw [hkk]
          intro hc
          exact hk (Or.inr (Or.inr (Or.inr hc)))
        · rw [hkk]
          intro hc
          exact hk (Or.elim hc Or.inl (fun hc' => Or.inr (Or.elim hc' Or.inl
            (fun hc'' => Or.inr (Or.inl hc'')))))
      simp [hnf]
    · have hke' : (e.1 == k) = false := Bool.eq_false_iff.mpr hke
      simp only [hke']
      exact ih

/-- C8: normalization changes at most the configured amount fields
(`Total Funding`, `ARR`, `Valuation`) and count field (`Employees`): every
other column's value is passed through unchanged, the per-row column list is
preserved, and the output header equals the input header. -/
theorem normalize_row_frame (header : List String) (rows : List Row) (r : Row)
    (k : String)
    (hk : k ∉ ["Total Funding", "ARR", "Valuation", "Employees"]) :
    (normalizeRow r).map Prod.fst = r.map Prod.fst ∧
    lookupRow (normalizeRow r) k = lookupRow r k ∧
    (normalize_csv header rows).1.1 = header := by
  refine ⟨?_, ?_, rfl⟩
  · unfold normalizeRow
    rw [List.map_map]
    rfl
  · apply lookupRow_normalizeRow
    intro hc
    apply hk
    rcases hc with h | h | h | h
    · exact h ▸ List.mem_cons_self _ _
    · exact h ▸ List.mem_cons_of_mem _ (List.mem_cons_self _ _)
    · exact h ▸ List.mem_cons_of_mem _ (List.mem_cons_of_mem _ (List.mem_cons_self _ _))
    · exact h ▸ List.mem_cons_of_mem _ (List.mem_cons_of_mem _
        (List.mem_cons_of_mem _ (List.mem_cons_self _ _)))

/-- Witness for C8 on a concrete row: the company-name column passes through
byte for byte while the column list is unchanged. -/
theorem normalize_row_frame_witness :
    (normalizeRow [("Company Name", some "Acme, Inc."), ("ARR", some "$2B")]).map Prod.fst =
      [("Company Name", some "Acme, Inc."), ("ARR", some "$2B")].map Prod.fst ∧
    lookupRow (normalizeRow [("Company Name", some "Acme, Inc."), ("ARR", some "$2B")])
        "Company Name" =
      lookupRow [("Company Name", some "Acme, Inc."), ("ARR", some "$2B")] "Company Name" := by
  have h := normalize_row_frame []
    [] [("Company Name", some "Acme, Inc."), ("ARR", some "$2B")]
    "Company Name" (by decide)
  exact ⟨h.1, h.2.1⟩

/-! ### Claim C3 -/

lemma not_select_of_other {l : List Char} {c : Char} {p : List Char}
    (h : (c :: p).isPrefixOf l = true) (hc : c ≠ 's') :
    "select".data.isPrefixOf l = false := by
  cases l with
  | nil => simp at h
  | cons x xs =>
    rw [ List.isPrefixOf_iff_prefix] at h
    rcases h with ⟨t, ht⟩
    rw [List.cons_append] at ht
    have hx : c = x := ((List.cons.injEq _ _ _ _).mp ht).1
    cases hsel : "select".data.isPrefixOf (x :: xs) with
    | false => rfl
    | true =>
      exfalso
      rw [ List.isPrefixOf_iff_prefix] at hsel
      rcases hsel with ⟨t2, ht2⟩
      rw [show "select".data = 's' :: "elect".data from rfl, List.cons_append] at ht2
      have hs : 's' = x := ((List.cons.injEq _ _ _ _).mp ht2).1
      exact hc (hx.trans hs.symm)

/-- C3: the SELECT gate of `query_parquet` and of the ask path fails exactly
when the trimmed, case-insensitively lowered statement does not start with
`select`; statements beginning with `update`, `insert` or `drop` in any
letter case are rejected by both guards, and statements beginning with
`select` in any letter case (after trimming) pass both guards. -/
theorem validator_select_gate (sql : String) :
    (query_parquet_guard sql = Except.error "Only SELECT statements are allowed" ↔
      sql_guard sql = false) ∧
    (ask_guard sql = Except.error "Generated SQL must be SELECT" ↔
      sql_guard sql = false) ∧
    ("update".data.isPrefixOf (pyLowerL (pyStripL sql.data)) = true →
      query_parquet_guard sql = Except.error "Only SELECT statements are allowed" ∧
      ask_guard sql = Except.error "Generated SQL must be SELECT") ∧
    ("insert".data.isPrefixOf (pyLowerL (pyStripL sql.data)) = true →
      query_parquet_guard sql = Except.error "Only SELECT statements are allowed" ∧
      ask_guard sql = Except.error "Generated SQL must be SELECT") ∧
    ("drop".data.isPrefixOf (pyLowerL (pyStripL sql.data)) = true →
      query_parquet_guard sql = Except.error "Only SELECT statements are allowed" ∧
      ask_guard sql = Except.error "Generated SQL must be SELECT") ∧
    ("select".data.isPrefixOf (pyLowerL (pyStripL sql.data)) = true →
      query_parquet_guard sql = Except.ok () ∧ ask_guard sql = Except.ok ()) := by
  have hgu : ∀ hfalse : sql_guard sql = false,
      query_parquet_guard sql = Except.error "Only SELECT statements are allowed" ∧
      ask_guard sql = Except.error "Generated SQL must be SELECT" := by
    intro hfalse
    constructor
    · simp [query_parquet_guard, hfalse]
    · simp [ask_guard, hfalse]
  refine ⟨?_, ?_, ?_, ?_, ?_, ?_⟩
  · cases hg : sql_guard sql with
    | false => simp [query_parquet_guard, hg]
    | true => simp [query_parquet_guard, hg]
  · cases hg : sql_guard sql with
    | false => simp [ask_guard, hg]
    | true => simp [ask_guard, hg]
  · intro h
    exact hgu (not_select_of_other
      (show ('u' :: "pdate".data).isPrefixOf _ = true from h) (by decide))
  · intro h
    exact hgu (not_select_of_other
      (show ('i' :: "nsert".data).isPrefixOf _ = true from h) (by decide))
  · intro h
    exact hgu (not_select_of_other
      (show ('d' :: "rop".data).isPrefixOf _ = true from h) (by decide))
  · intro h
    have hg : sql_guard sql = true := h
    exact ⟨by simp [query_parquet_guard, hg], by simp [ask_guard, hg]⟩

/-- Witness for C3 at concrete statements: an UPDATE, an INSERT and a DROP
are rejected by both guards, a mixed-case SELECT with leading blanks passes
both. -/
theorem validator_select_gate_witness :
    query_parquet_guard "UPDATE data SET x = 1" =
      Except.error "Only SELECT statements are allowed" ∧
    ask_guard "Insert INTO data VALUES (1)" =
      Except.error "Generated SQL must be SELECT" ∧
    query_parquet_guard "DrOp TABLE data" =
      Except.error "Only SELECT statements are allowed" ∧
    query_parquet_guard "  sElEcT 1" = Except.ok () ∧
    ask_guard "  sElEcT 1" = Except.ok () := by
  refine ⟨?_, ?_, ?_, ?_, ?_⟩
  · exact ((validator_select_gate "UPDATE data SET x = 1").2.2.1 (by decide)).1
  · exact ((validator_select_gate "Insert INTO data VALUES (1)").2.2.2.1 (by decide)).2
  · exact ((validator_select_gate "DrOp TABLE data").2.2.2.2.1 (by decide)).1
  · exact ((validator_select_gate "  sElEcT 1").2.2.2.2.2 (by decide)).1
  · exact ((validator_select_gate "  sElEcT 1").2.2.2.2.2 (by decide)).2

/-! ### Claim C6 -/

lemma intTextOfScaled_shape (np : List Char) (f : Nat) :
    intTextOfScaled np f = "" ∨ ∃ n : Nat, intTextOfScaled np f = toString n := by
  unfold intTextOfScaled
  dsimp only []
  split
  · exact Or.inl rfl
  · split
    · exact Or.inl rfl
    · exact Or.inr ⟨_, rfl⟩

lemma parse_money_shape (value : Option String) :
    parse_money_to_int value = "" ∨
      ∃ n : Nat, parse_money_to_int value = toString n := by
  unfold parse_money_to_int
  rcases value with _ | v
  · exact Or.inl rfl
  · dsimp only []
    split
    · exact Or.inl rfl
    · split
      · exact Or.inl rfl
      · split
        · exact Or.inl rfl
        · split
          · exact intTextOfScaled_shape _ _
          · split
            · exact intTextOfScaled_shape _ _
            · exact Or.inl rfl

lemma parse_employees_shape (value : Option String) :
    parse_employees_to_int value = "" ∨
      ∃ i : Int, parse_employees_to_int value = toString i := by
  unfold parse_employees_to_int
  rcases value with _ | v
  · exact Or.inl rfl
  · dsimp only []
    split
    · exact Or.inl rfl
    · split
      · split
        · exact Or.inl rfl
        · split
          · split
            · exact Or.inr ⟨_, rfl⟩
            · exact Or.inr ⟨_, rfl⟩
          · exact Or.inl rfl
      · split
        · exact Or.inr ⟨_, rfl⟩
        · exact Or.inl rfl

/-- C6: both canonicalizers are total and deterministic: every input
(missing values included) yields either the empty string or a canonical
integer text (a natural number for amounts, a possibly signed integer for
counts), and equal inputs yield equal outputs. -/
theorem canonicalizers_total (value w : Option String) (hvw : value = w) :
    (parse_money_to_int value = "" ∨
      ∃ n : Nat, parse_money_to_int value = toString n) ∧
    (parse_employees_to_int value = "" ∨
      ∃ i : Int, parse_employees_to_int value = toString i) ∧
    parse_money_to_int value = parse_money_to_int w ∧
    parse_employees_to_int value = parse_employees_to_int w := by
  subst hvw
  exact ⟨parse_money_shape value, parse_employees_shape value, rfl, rfl⟩

/-- Witness for C6 at concrete inputs, covering the missing-value case and a
signed count. -/
theorem canonicalizers_total_witness :
    (parse_money_to_int (some "garbage≠money") = "" ∨
      ∃ n : Nat, parse_money_to_int (some "garbage≠money") = toString n) ∧
    (parse_employees_to_int (some "-5") = "" ∨
      ∃ i : Int, parse_employees_to_int (some "-5") = toString i) ∧
    parse_money_to_int none = parse_money_to_int none := by
  refine ⟨(canonicalizers_total (some "garbage≠money") (some "garbage≠money") rfl).1,
    (canonicalizers_total (some "-5") (some "-5") rfl).2.1,
    (canonicalizers_total none none rfl).2.2.1⟩

/-! ### Claim C1 -/

/-- C1: the orchestrator tries OpenAI, then Anthropic, then Ollama; the
first backend whose result is decisive (the insufficiency sentinel or a
non-empty extracted statement) fixes the final outcome attributed to that
backend, independently of every later backend; a missing credential behaves
exactly like a transient failure (skip and continue); an unparseable
completion also advances the chain; and when no backend is decisive the
outcome is the insufficiency sentinel attributed to the source `"none"`. -/
theorem orchestrator_fallback_spec (o a : CallResult) (l : OllamaCall) :
    (decisiveRes (openai_generate_sql o) = true →
      generate_sql_from_question o a l = ("openai", openai_generate_sql o) ∧
      ∀ a' l', generate_sql_from_question o a' l' =
        generate_sql_from_question o a l) ∧
    (decisiveRes (openai_generate_sql o) = false →
      decisiveRes (anthropic_generate_sql a) = true →
      generate_sql_from_question o a l = ("anthropic", anthropic_generate_sql a) ∧
      ∀ l', generate_sql_from_question o a l' =
        generate_sql_from_question o a l) ∧
    (decisiveRes (openai_generate_sql o) = false →
      decisiveRes (anthropic_generate_sql a) = false →
      generate_sql_from_question o a l = ollamaStep l) ∧
    (∀ s, ollama_generate_sql l = some s → s ≠ "" →
      ollamaStep l = ("ollama-duckdb-nsql", some s)) ∧
    (decisiveRes (ollama_generate_sql l) = false →
      ollamaStep l = ("none", some "INSUFFICIENT_DATA")) ∧
    (openai_generate_sql CallResult.noKey = none ∧
      generate_sql_from_question CallResult.noKey a l =
        generate_sql_from_question CallResult.transient a l) ∧
    (∀ txt, extract_sql txt = none →
      generate_sql_from_question (CallResult.ok txt) a l =
        generate_sql_from_question CallResult.transient a l) := by
  refine ⟨?_, ?_, ?_, ?_, ?_, ⟨rfl, rfl⟩, ?_⟩
  · intro h
    constructor
    · exact keyedStep_decisive "openai" _ h
    · intro a' l'
      rw [show generate_sql_from_question o a' l' =
        keyedStep (openai_generate_sql o) "openai"
          (keyedStep (anthropic_generate_sql a') "anthropic" (ollamaStep l')) from rfl,
        keyedStep_decisive "openai" _ h,
        show generate_sql_from_question o a l =
        keyedStep (openai_generate_sql o) "openai"
          (keyedStep (anthropic_generate_sql a) "anthropic" (ollamaStep l)) from rfl,
        keyedStep_decisive "openai" _ h]
  · intro h1 h2
    constructor
    · rw [show generate_sql_from_question o a l =
        keyedStep (openai_generate_sql o) "openai"
          (keyedStep (anthropic_generate_sql a) "anthropic" (ollamaStep l)) from rfl,
        keyedStep_pass "openai" _ h1, keyedStep_decisive "anthropic" _ h2]
    · intro l'
      rw [show generate_sql_from_question o a l' =
        keyedStep (openai_generate_sql o) "openai"
          (keyedStep (anthropic_generate_sql a) "anthropic" (ollamaStep l')) from rfl,
        keyedStep_pass "openai" _ h1, keyedStep_decisive "anthropic" _ h2,
        show generate_sql_from_question o a l =
        keyedStep (openai_generate_sql o) "openai"
          (keyedStep (anthropic_generate_sql a) "anthropic" (ollamaStep l)) from rfl,
        keyedStep_pass "openai" _ h1, keyedStep_decisive "anthropic" _ h2]
  · intro h1 h2
    rw [show generate_sql_from_question o a l =
      keyedStep (openai_generate_sql o) "openai"
        (keyedStep (anthropic_generate_sql a) "anthropic" (ollamaStep l)) from rfl,
      keyedStep_pass "openai" _ h1, keyedStep_pass "anthropic" _ h2]
  · intro s hr hne
    unfold ollamaStep
    rw [hr]
    simp [hne]
  · intro h
    rcases hr : ollama_generate_sql l with _ | s
    · unfold ollamaStep
      rw [hr]
    · rw [hr] at h
      have hs : s ≠ "INSUFFICIENT_DATA" ∧ (s = "FALLBACK" ∨ s = "") := by
        simp [decisiveRes] at h
        tauto
      rcases hs.2 with hF | hE
      · exfalso
        subst hF
        cases l with
        | transient => simp [ollama_generate_sql] at hr
        | ok txt =>
          have hg := extract_sql_select (t := txt) hr (by decide)
          exact absurd hg (by decide)
      · subst hE
        unfold ollamaStep
        rw [hr]
        rfl
  · intro txt hext
    rw [show generate_sql_from_question (CallResult.ok txt) a l =
      keyedStep (openai_generate_sql (CallResult.ok txt)) "openai"
        (keyedStep (anthropic_generate_sql a) "anthropic" (ollamaStep l)) from rfl,
      show openai_generate_sql (CallResult.ok txt) = extract_sql txt from rfl, hext]
    rfl

/-- Witness for C1: a transient OpenAI failure falls through to Anthropic,
whose fenced statement wins attributed to Anthropic; an OpenAI insufficiency
signal short-circuits the chain regardless of a valid Anthropic answer. -/
theorem orchestrator_fallback_spec_witness :
    generate_sql_from_question CallResult.transient
        (CallResult.ok "```sql\nSELECT 1\n```") OllamaCall.transient =
      ("anthropic", some "SELECT 1") ∧
    generate_sql_from_question (CallResult.ok "no luck, insufficient data here")
        (CallResult.ok "SELECT 9 FROM data") OllamaCall.transient =
      ("openai", some "INSUFFICIENT_DATA") ∧
    generate_sql_from_question CallResult.noKey CallResult.noKey
        OllamaCall.transient = ("none", some "INSUFFICIENT_DATA") := by
  refine ⟨?_, ?_, ?_⟩
  · have h := (orchestrator_fallback_spec CallResult.transient
      (CallResult.ok "```sql\nSELECT 1\n```") OllamaCall.transient).2.1
      (by decide) (by decide)
    exact h.1.trans (by decide)
  · have h := (orchestrator_fallback_spec (CallResult.ok "no luck, insufficient data here")
      (CallResult.ok "SELECT 9 FROM data") OllamaCall.transient).1 (by decide)
    exact h.1.trans (by decide)
  · have h3 := (orchestrator_fallback_spec CallResult.noKey CallResult.noKey
      OllamaCall.transient).2.2.1 (by decide) (by decide)
    have h4 := (orchestrator_fallback_spec CallResult.noKey CallResult.noKey
      OllamaCall.transient).2.2.2.2.1 (by decide)
    exact h3.trans h4

/-! ### Claim C9 -/

/-- C9: every non-sentinel statement returned by the orchestrator starts
with `select` case-insensitively (after trimming), because the extractor
returns the text from the first `select` keyword onward; hence the SELECT
rejection branches of the ask path and of `query_parquet` cannot fire on an
orchestrator-produced statement. -/
theorem generated_sql_always_select (o a : CallResult) (l : OllamaCall)
    (src sql : String)
    (h : generate_sql_from_question o a l = (src, some sql))
    (hs : sql ≠ "INSUFFICIENT_DATA") :
    sql_guard sql = true ∧ query_parquet_guard sql = Except.ok () ∧
      ask_guard sql = Except.ok () := by
  suffices hg : sql_guard sql = true by
    exact ⟨hg, by simp [query_parquet_guard, hg], by simp [ask_guard, hg]⟩
  unfold generate_sql_from_question at h
  have step : ∀ (c : CallResult) (s : String), openai_generate_sql c = some s →
      s ≠ "INSUFFICIENT_DATA" → s ≠ "FALLBACK" → sql_guard s = true := by
    intro c s hr hnI _
    cases c with
    | noKey => simp [openai_generate_sql] at hr
    | transient =>
      simp [openai_generate_sql] at hr
      exfalso
      exact absurd hr.symm (by assumption)
    | ok txt => exact extract_sql_select hr hnI
  rcases keyedStep_cases (openai_generate_sql o) "openai" _ with hstep | ⟨s, hr, hFB, _, hstep⟩
  · rw [hstep] at h
    rcases keyedStep_cases (anthropic_generate_sql a) "anthropic" _ with
      hstep2 | ⟨s2, hr2, hFB2, _, hstep2⟩
    · rw [hstep2] at h
      rcases ollamaStep_cases l with hstep3 | ⟨s3, hr3, _, hstep3⟩
      · rw [hstep3] at h
        have hsq : "INSUFFICIENT_DATA" = sql := by
          have h' := congrArg Prod.snd h
          simpa using h'
        exact absurd hsq.symm hs
      · rw [hstep3] at h
        have hsq : s3 = sql := by
          have h' := congrArg Prod.snd h
          simpa using h'
        subst hsq
        cases l with
        | transient => simp [ollama_generate_sql] at hr3
        | ok txt => exact extract_sql_select hr3 hs
    · rw [hstep2] at h
      have hsq : s2 = sql := by
        have h' := congrArg Prod.snd h
        simpa using h'
      subst hsq
      exact step a s2 hr2 hs hFB2
  · rw [hstep] at h
    have hsq : s = sql := by
      have h' := congrArg Prod.snd h
      simpa using h'
    subst hsq
    exact step o s hr hs hFB

/-- Witness for C9: a concrete orchestrator run whose OpenAI completion is a
bare SELECT produces a statement that passes both guards. -/
theorem generated_sql_always_select_witness :
    sql_guard "SELECT 2 FROM data" = true ∧
    query_parquet_guard "SELECT 2 FROM data" = Except.ok () ∧
    ask_guard "SELECT 2 FROM data" = Except.ok () :=
  generated_sql_always_select (CallResult.ok "SELECT 2 FROM data")
    CallResult.noKey OllamaCall.transient "openai" "SELECT 2 FROM data"
    (by decide) (by decide)

/-! ### Claim C2 -/

/-- C2: the extractor returns the insufficiency sentinel exactly when the
raw text contains `insufficient data` case-insensitively anywhere (checked
before any other parsing); otherwise, on the fence-stripped text, it is
unparseable exactly when no case-insensitive `select` keyword occurs, and
otherwise returns the trimmed text from the first such occurrence to the
end; the cited fenced and keyword-free examples behave as stated. -/

theorem extract_sql_spec (text : String) :
    (extract_sql text = some "INSUFFICIENT_DATA" ↔
      containsSub "insufficient data".data (pyLowerL text.data) = true) ∧
    (containsSub "insufficient data".data (pyLowerL text.data) = false →
      (extract_sql text = none ↔
        ∀ i, selectAtHead ((fenceStripped (pyStripL text.data)).drop i) = false) ∧
      (∀ i, findSelect (fenceStripped (pyStripL text.data)) = some i →
        selectAtHead ((fenceStripped (pyStripL text.data)).drop i) = true ∧
        (∀ j, j < i → selectAtHead ((fenceStripped (pyStripL text.data)).drop j) = false) ∧
        extract_sql text =
          some (String.mk (pyStripL ((fenceStripped (pyStripL text.data)).drop i))))) ∧
    extract_sql "```sql\nSELECT 1\n```" = some "SELECT 1" ∧
    extract_sql "here is your answer: 42" = none := by
  have hbr := contains_lower_strip "insufficient data".data 'i' 'a'
    "nsufficient data".data "insufficient dat".data
    (by decide) (by decide) (by decide) (by decide) text.data
  refine ⟨?_, ?_, by decide, by decide⟩
  · by_cases he : text.isEmpty = true
    · rw [(String.isEmpty_iff text).mp he]
      decide
    · rw [← hbr]
      unfold extract_sql
      rw [if_neg he]
      dsimp only []
      by_cases hins : containsSub "insufficient data".data (pyLowerL (pyStripL text.data)) = true
      · rw [if_pos hins]
        simp [hins]
      · rw [if_neg hins]
        have hinsf := Bool.eq_false_iff.mpr hins
        rw [hinsf]
        simp only [Bool.false_eq_true, iff_false]
        intro habs
        rcases hfs : findSelect (fenceStripped (pyStripL text.data)) with _ | i
        · rw [hfs] at habs
          simp at habs
        · rw [hfs] at habs
          rw [Option.some.injEq] at habs
          rcases findSelectAux_some hfs with ⟨d, hd, hsel, _⟩
          have hdi : d = i := by omega
          subst hdi
          exact (select_result hsel).2 habs
  · intro hni
    have hni' : containsSub "insufficient data".data (pyLowerL (pyStripL text.data)) = false :=
      hbr.trans hni
    constructor
    · by_cases he : text.isEmpty = true
      · rw [(String.isEmpty_iff text).mp he]
        constructor
        · intro _ i
          have hfe : fenceStripped (pyStripL ("" : String).data) = [] := by decide
          rw [hfe, List.drop_nil]
          decide
        · intro _
          decide
      · unfold extract_sql
        rw [if_neg he]
        dsimp only []
        rw [hni']
        simp only [Bool.false_eq_true, if_false]
        constructor
        · intro hme i
          rcases hfs : findSelect (fenceStripped (pyStripL text.data)) with _ | j
          · exact findSelectAux_none hfs i
          · rw [hfs] at hme
            simp at hme
        · intro hall
          rw [show findSelect (fenceStripped (pyStripL text.data)) = none from
            findSelectAux_none_of 0 hall]
    · intro i hfsel
      rcases findSelectAux_some hfsel with ⟨d, hd, hsel, hmin⟩
      have hdi : d = i := by omega
      subst hdi
      refine ⟨hsel, hmin, ?_⟩
      by_cases he : text.isEmpty = true
      · exfalso
        rw [(String.isEmpty_iff text).mp he] at hfsel
        have hfe : fenceStripped (pyStripL ("" : String).data) = [] := by decide
        rw [hfe] at hfsel
        simp [findSelect, findSelectAux] at hfsel
      · unfold extract_sql
        rw [if_neg he]
        dsimp only []
        rw [hni']
        simp only [Bool.false_eq_true, if_false]
        rw [hfsel]

/-- Witness for C2: an insufficiency phrase anywhere wins, and a statement
preceded by prose is extracted from its first `select` keyword onward. -/
theorem extract_sql_spec_witness :
    extract_sql "Sadly there is Insufficient Data available." =
      some "INSUFFICIENT_DATA" ∧
    extract_sql "The answer:\nSELECT x FROM data" = some "SELECT x FROM data" := by
  constructor
  · exact (extract_sql_spec "Sadly there is Insufficient Data available.").1.mpr
      (by decide)
  · have h := ((extract_sql_spec "The answer:\nSELECT x FROM data").2.1
      (by decide)).2 12 (by decide)
    exact h.2.2.trans (by decide)

/-! ### Claim C10 -/

lemma takeWhile_append_all {p : Char → Bool} {l₁ : List Char} (l₂ : List Char)
    (h : ∀ a ∈ l₁, p a = true) :
    (l₁ ++ l₂).takeWhile p = l₁ ++ l₂.takeWhile p := by
  induction l₁ with
  | nil => rfl
  | cons c t ih =>
    rw [List.cons_append, List.takeWhile_cons, if_pos (h c (List.mem_cons_self c t)),
      ih (fun a ha => h a (List.mem_cons_of_mem c ha)), List.cons_append]

lemma digitRun_append_stop {ds : List Char} (r : List Char)
    (hds : ∀ x ∈ ds, x.isDigit = true)
    (hr : r.takeWhile Char.isDigit = []) :
    digitRun (ds ++ r) = ds.length := by
  unfold digitRun
  rw [takeWhile_append_all r hds, hr, List.append_nil]

lemma suffixMatch_dot {ds fs rest : List Char} {c : Char}
    (hdsd : ∀ x ∈ ds, x.isDigit = true)
    (hfs : fs ≠ []) (hfsd : ∀ x ∈ fs, x.isDigit = true)
    (hcd : c.isDigit = false) (hcws : isPySpace c = false)
    (hcl : isAsciiLetter c = true) :
    suffixMatch ((ds ++ ('.' :: fs)) ++ (c :: rest)) =
      some (ds.length + 1 + fs.length, c) := by
  have hcs2 : (ds ++ ('.' :: fs)) ++ (c :: rest) = ds ++ ('.' :: (fs ++ (c :: rest))) := by
    simp [List.append_assoc]
  have hdr : digitRun ((ds ++ ('.' :: fs)) ++ (c :: rest)) = ds.length := by
    rw [hcs2]
    exact digitRun_append_stop _ hdsd (by rw [List.takeWhile_cons, if_neg (by decide)])
  have hdrop : ((ds ++ ('.' :: fs)) ++ (c :: rest)).drop ds.length = '.' :: (fs ++ (c :: rest)) := by
    rw [hcs2]
    exact List.drop_left' rfl
  have hlen : (ds ++ ('.' :: fs)).length = ds.length + 1 + fs.length := by
    simp [List.length_append]
    omega
  have hdrop2 : ((ds ++ ('.' :: fs)) ++ (c :: rest)).drop (ds.length + 1 + fs.length) = c :: rest :=
    List.drop_left' hlen
  have hr2 : digitRun (fs ++ (c :: rest)) = fs.length :=
    digitRun_append_stop _ hfsd (by rw [List.takeWhile_cons, if_neg (by simp [hcd])])
  obtain ⟨f0, fs', rfl⟩ : ∃ f0 fs', fs = f0 :: fs' := by
    rcases fs with _ | ⟨f0, fs'⟩
    · exact absurd rfl hfs
    · exact ⟨f0, fs', rfl⟩
  unfold suffixMatch candEnds
  rw [hdr, List.range_succ, List.reverse_append,
    show ([ds.length] : List Nat).reverse = [ds.length] from rfl, List.singleton_append,
    List.flatMap_cons]
  dsimp only []
  rw [hdrop]
  dsimp only []
  rw [if_pos rfl, hr2]
  have hdr0 : digitRun ('.' :: (f0 :: fs' ++ c :: rest)) = 0 := by
    unfold digitRun
    rw [List.takeWhile_cons, if_neg (by decide)]
    rfl
  rw [hdr0]
  simp only [List.range_zero, List.reverse_nil, List.map_nil, List.nil_append,
    List.append_nil, List.length_cons]
  simp only [List.length_cons] at hdrop2
  rw [List.range_succ, List.reverse_append,
    show ([fs'.length] : List Nat).reverse = [fs'.length] from rfl,
    List.singleton_append, List.map_cons, List.cons_append,
    List.findSome?_cons]
  rw [hdrop2, stripLeftL_cons_of rest hcws]
  dsimp only []
  rw [if_pos hcl]

lemma suffixMatch_nodot {ds rest : List Char} {c : Char}
    (hds : ds ≠ []) (hdsd : ∀ x ∈ ds, x.isDigit = true)
    (hcd : c.isDigit = false) (hcdot : c ≠ '.') (hcws : isPySpace c = false)
    (hcl : isAsciiLetter c = true) :
    suffixMatch (ds ++ (c :: rest)) = some (ds.length, c) := by
  obtain ⟨ds₁, dl, rfl⟩ : ∃ L b, ds = L ++ [b] := by
    rcases List.eq_nil_or_concat ds with h | ⟨L, b, h⟩
    · exact absurd h hds
    · exact ⟨L, b, by rw [h, List.concat_eq_append]⟩
  have hdl : dl.isDigit = true :=
    hdsd dl (List.mem_append_right _ (List.mem_cons_self _ _))
  have hdr : digitRun ((ds₁ ++ [dl]) ++ (c :: rest)) = ds₁.length + 1 := by
    have h' : digitRun ((ds₁ ++ [dl]) ++ (c :: rest)) = (ds₁ ++ [dl]).length :=
      digitRun_append_stop _ hdsd (by rw [List.takeWhile_cons, if_neg (by simp [hcd])])
    simpa using h'
  have hdropn : List.drop (ds₁.length + 1) ((ds₁ ++ [dl]) ++ (c :: rest)) = c :: rest :=
    List.drop_left' (by simp)
  have hdropn1 : List.drop ds₁.length ((ds₁ ++ [dl]) ++ (c :: rest)) = dl :: (c :: rest) := by
    rw [List.append_assoc, List.singleton_append]
    exact List.drop_left' rfl
  unfold suffixMatch candEnds
  rw [hdr, List.range_succ, List.reverse_append,
    show ([ds₁.length + 1] : List Nat).reverse = [ds₁.length + 1] from rfl,
    List.singleton_append, List.range_succ, List.reverse_append,
    show ([ds₁.length] : List Nat).reverse = [ds₁.length] from rfl,
    List.singleton_append, List.flatMap_cons, List.flatMap_cons]
  dsimp only []
  rw [hdropn, hdropn1]
  dsimp only []
  rw [if_neg hcdot, if_neg (ne_dot_of_digit hdl)]
  have h0 : digitRun (c :: rest) = 0 := by
    unfold digitRun
    rw [List.takeWhile_cons, if_neg (by simp [hcd])]
    rfl
  have h1 : digitRun (dl :: (c :: rest)) = 1 := by
    unfold digitRun
    rw [List.takeWhile_cons, if_pos hdl, List.takeWhile_cons, if_neg (by simp [hcd])]
    rfl
  rw [h0, h1]
  simp only [List.range_zero, List.reverse_nil, List.map_nil, List.nil_append,
    List.append_nil]
  rw [show (List.range 1).reverse = [0] from rfl, List.map_cons, List.map_nil,
    List.singleton_append, List.findSome?_cons, hdropn,
    stripLeftL_cons_of rest hcws]
  dsimp only []
  rw [if_pos hcl]
  simp

lemma sentinel_head_contradiction {ds mid wrest : List Char} {w0 : Char}
    (hds : ds ≠ []) (hdsd : ∀ x ∈ ds, x.isDigit = true)
    (hw0 : w0.isDigit = false)
    (h : ds ++ mid = w0 :: wrest) : False := by
  rcases ds with _ | ⟨d, ds'⟩
  · exact hds rfl
  · rw [List.cons_append] at h
    have hd := ((List.cons.injEq _ _ _ _).mp h).1
    have hdig := hdsd d (List.mem_cons_self _ _)
    rw [hd, hw0] at hdig
    simp at hdig

lemma clean_of_lower_eq {s w : List Char}
    (hl : pyLowerL s = w)
    (h1 : '$' ∉ w) (h2 : ',' ∉ w) (h3 : ' ' ∉ w) :
    moneyCleaned s = w := by
  unfold moneyCleaned
  have hmem : ∀ ch ∈ s, ch ≠ '$' ∧ ch ≠ ',' ∧ ch ≠ ' ' := by
    intro ch hch
    have hin : pyLowerChar ch ∈ w := by
      rw [← hl]
      exact List.mem_map_of_mem _ hch
    refine ⟨?_, ?_, ?_⟩ <;> rintro rfl
    · exact h1 hin
    · exact h2 hin
    · exact h3 hin
  have e1 : s.filter (fun ch => ch != '$') = s :=
    List.filter_eq_self.mpr (fun a ha => by simpa using (hmem a ha).1)
  have e2 : s.filter (fun ch => ch != ',') = s :=
    List.filter_eq_self.mpr (fun a ha => by simpa using (hmem a ha).2.1)
  have e3 : s.filter (fun ch => ch != ' ') = s :=
    List.filter_eq_self.mpr (fun a ha => by simpa using (hmem a ha).2.2)
  rw [e1, e2, e3, hl]

/-- C10 (amended): when the cleaned amount text is a decimal number
immediately followed by a letter other than `t`, `b`, `m`, the suffix branch
of `parse_money_to_int` still matches with that letter as the suffix, the
factor stays 1, and the result is `str(int(float(number) * 1))` — the
truncation of the IEEE-754 double value of the numeral, with everything
after the suffix letter ignored.  (As originally stated, with the exactly
truncated number as the result, the claim fails where double rounding
intervenes; see the counterexample.) -/
theorem parse_money_unknown_suffix (v : String) (ds fs rest : List Char) (c : Char)
    (hds : ds ≠ []) (hdsd : ∀ x ∈ ds, x.isDigit = true)
    (hfsd : ∀ x ∈ fs, x.isDigit = true)
    (hc : isAsciiLetter c = true)
    (hct : pyLowerChar c ≠ 't') (hcb : pyLowerChar c ≠ 'b') (hcm : pyLowerChar c ≠ 'm')
    (hcln : moneyCleaned (pyStripL v.data) =
      (ds ++ (if fs.isEmpty then [] else '.' :: fs)) ++ (c :: rest)) :
    parse_money_to_int (some v) =
      intTextOfScaled (ds ++ (if fs.isEmpty then [] else '.' :: fs)) 1 := by
  have hcd : c.isDigit = false := isDigit_false_of_letter hc
  have hcws : isPySpace c = false := isPySpace_false_of_letter hc
  have hcdot : c ≠ '.' := ne_dot_of_letter hc
  have hcln' : moneyCleaned (pyStripL v.data) =
      ds ++ ((if fs.isEmpty then [] else '.' :: fs) ++ (c :: rest)) := by
    rw [hcln, List.append_assoc]
  have hstrip_ne : pyStripL v.data ≠ [] := by
    intro h0
    rw [h0] at hcln'
    rcases ds with _ | ⟨d, ds'⟩
    · exact hds rfl
    · rw [show moneyCleaned [] = [] from rfl, List.cons_append] at hcln'
      simp at hcln'
  have hsent : moneySentinels.contains (String.mk (pyLowerL (pyStripL v.data))) = false := by
    cases hcon : moneySentinels.contains (String.mk (pyLowerL (pyStripL v.data))) with
    | false => rfl
    | true =>
      exfalso
      simp only [moneySentinels] at hcon
      simp at hcon
      rcases hcon with h | h | h | h | h <;>
        exact sentinel_head_contradiction hds hdsd (by decide)
          (hcln'.symm.trans (clean_of_lower_eq (congrArg String.data h)
            (by decide) (by decide) (by decide)))
  have hse : (pyStripL v.data).isEmpty = false := by
    cases hq : pyStripL v.data with
    | nil => exact absurd hq hstrip_ne
    | cons x xs => rfl
  unfold parse_money_to_int
  dsimp only []
  rw [hse]
  simp only [Bool.false_eq_true, if_false]
  rw [hsent]
  simp only [Bool.false_eq_true, if_false]
  rw [hcln']
  have hs2e : (ds ++ ((if fs.isEmpty then [] else '.' :: fs) ++ (c :: rest))).isEmpty = false := by
    rcases ds with _ | ⟨d, ds2⟩
    · exact absurd rfl hds
    · rfl
  rw [hs2e]
  simp only [Bool.false_eq_true, if_false]
  rcases fs with _ | ⟨f0, fs2⟩
  · simp only [List.isEmpty_nil, if_true, List.nil_append, List.append_nil]
    rw [suffixMatch_nodot hds hdsd hcd hcdot hcws hc]
    dsimp only []
    rw [if_neg hct, if_neg hcb, if_neg hcm, List.take_left' rfl]
  · simp only [List.isEmpty_cons, Bool.false_eq_true, if_false]
    rw [← List.append_assoc]
    rw [suffixMatch_dot hdsd (by simp) hfsd hcd hcws hc]
    dsimp only []
    rw [if_neg hct, if_neg hcb, if_neg hcm]
    have hlen2 : (ds ++ ('.' :: (f0 :: fs2))).length = ds.length + 1 + (f0 :: fs2).length := by
      simp
      omega
    rw [List.take_left' hlen2]

/-- Counterexample for C10 as originally stated: at `"0.99999999999999999k"`
the numeral rounds to the double `1.0`, so the program returns `"1"` while
the exactly truncated number is `0`; at `"99999999999999999999k"` it returns
the rounded `"100000000000000000000"`, not the numeral itself. -/
theorem parse_money_unknown_suffix_counterexample :
    parse_money_to_int (some "0.99999999999999999k") = "1" ∧
    parse_money_to_int (some "0.99999999999999999k") ≠
      toString ((99999999999999999 : Nat) / 10 ^ 17) ∧
    parse_money_to_int (some "99999999999999999999k") = "100000000000000000000" := by
  refine ⟨?_, ?_, ?_⟩ <;> decide

/-- Witness for C10: `"5k"` parses to `"5"` (unknown suffix, factor 1), and
`"2.5 million"` parses to `"2500000"` (the first letter `m` is the suffix,
the rest ignored). -/
theorem parse_money_unknown_suffix_witness :
    parse_money_to_int (some "5k") = "5" ∧
    parse_money_to_int (some "2.5 million") = "2500000" := by
  constructor
  · have h := parse_money_unknown_suffix "5k" ['5'] [] [] 'k'
      (by decide) (by decide) (by decide) (by decide) (by decide) (by decide)
      (by decide) (by decide)
    exact h.trans (by decide)
  · decide
